import Mathlib

/-
Verification of the mask/label codec, dataset loaders, volume resampler and
training metrics of the 2D U-Net wrapper
(StudProjects/team02/unet/unet_2D/unet2DModel.py).

The embedding below translates the pure logic of that file:
pixels are uint8 channel vectors (Fin 256 values), masks are S x S arrays of
such vectors, encoded label planes are boolean arrays with the class axis last,
and the numeric kernels (metrics, normalization) work over exact rationals,
with an explicit IEEE-style value type where float infinities/NaN matter.
-/

/-- A uint8 channel value, as produced by skimage.io.imread on 8-bit images. -/
abbrev Byte := Fin 256

/-- An RGB-like color: one uint8 value per channel (C = IMG_CHANNELS). -/
abbrev Color (C : ℕ) := Fin C → Byte

/-- The ordered class table self.CLASSES: (color, label) pairs; the position in
the list is the class index used everywhere. -/
abbrev ClassTable (C : ℕ) := List (Color C × String)

/-- A colored mask image of shape (S, S, C): every pixel is a channel vector. -/
abbrev MaskImg (S C : ℕ) := Fin S → Fin S → Color C

/-- Encoded label planes of shape (S, S, n), class axis last (np.bool array). -/
abbrev Planes (S n : ℕ) := Fin S → Fin S → Fin n → Bool

/-- One class plane (line 87): np.all(np.equal(mask, color * ones), axis=-1),
true at a pixel iff every channel of the pixel equals the class color. -/
def classPlane {S C : ℕ} (color : Color C) (mask : MaskImg S C) :
    Fin S → Fin S → Bool :=
  fun x y => decide (∀ k, mask x y k = color k)

/-- The intermediate (NUM_CLASSES, S, S) stack built by the loop of
mask_to_classes (lines 85-90): classes[i] = curr_class_mask. -/
def classesStack {S C : ℕ} (classes : ClassTable C) (mask : MaskImg S C) :
    Fin classes.length → Fin S → Fin S → Bool :=
  fun i => classPlane (classes.get i).1 mask

/-- np.swapaxes(t, 0, 2) on a rank-3 array viewed as a curried function. -/
def swapAxes02 {α A B D : Type} (t : A → B → D → α) : D → B → A → α :=
  fun d b a => t a b d

/-- np.swapaxes(t, 0, 1) on a rank-3 array viewed as a curried function. -/
def swapAxes01 {α A B D : Type} (t : A → B → D → α) : B → A → D → α :=
  fun b a d => t a b d

/-- mask_to_classes (lines 84-94): build one boolean plane per class table
entry, then swap axes from (n, x, y) to (x, y, n). -/
def mask_to_classes {S C : ℕ} (classes : ClassTable C) (mask : MaskImg S C) :
    Planes S classes.length :=
  swapAxes01 (swapAxes02 (classesStack classes mask))

/-- The set of indices attaining the maximum of f is nonempty (n > 0). -/
theorem argmax_filter_nonempty {n : ℕ} (hn : 0 < n) (f : Fin n → ℚ) :
    (Finset.univ.filter fun i => ∀ j, f j ≤ f i).Nonempty := by
  obtain ⟨b, -, hb⟩ :=
    Finset.exists_max_image (Finset.univ : Finset (Fin n)) f
      ⟨⟨0, hn⟩, Finset.mem_univ _⟩
  exact ⟨b, Finset.mem_filter.mpr
    ⟨Finset.mem_univ _, fun j => hb j (Finset.mem_univ _)⟩⟩

/-- np.argmax(·, axis=-1) at one pixel (line 243): the first (lowest) index
attaining the maximum value, embedded as the least element of the set of
maximizers. -/
def argmaxIdx {n : ℕ} (hn : 0 < n) (f : Fin n → ℚ) : Fin n :=
  (Finset.univ.filter fun i => ∀ j, f j ≤ f i).min' (argmax_filter_nonempty hn f)

theorem argmaxIdx_isMax {n : ℕ} (hn : 0 < n) (f : Fin n → ℚ) (j : Fin n) :
    f j ≤ f (argmaxIdx hn f) :=
  (Finset.mem_filter.mp (Finset.min'_mem _ (argmax_filter_nonempty hn f))).2 j

theorem argmaxIdx_le {n : ℕ} (hn : 0 < n) (f : Fin n → ℚ) (j : Fin n)
    (hj : ∀ k, f k ≤ f j) : argmaxIdx hn f ≤ j :=
  Finset.min'_le _ _ (Finset.mem_filter.mpr ⟨Finset.mem_univ _, hj⟩)

/-- With a unique strict maximizer, argmax returns it. -/
theorem argmaxIdx_eq_of_strict {n : ℕ} (hn : 0 < n) (f : Fin n → ℚ)
    (i₀ : Fin n) (h : ∀ j, j ≠ i₀ → f j < f i₀) : argmaxIdx hn f = i₀ := by
  by_contra hne
  exact absurd (argmaxIdx_isMax hn f i₀) (not_le.mpr (h _ hne))

/-- On a constant vector (all entries tied), argmax returns index 0. -/
theorem argmaxIdx_const {n : ℕ} (hn : 0 < n) (f : Fin n → ℚ) (c : ℚ)
    (h : ∀ j, f j = c) : argmaxIdx hn f = ⟨0, hn⟩ := by
  have h0 : argmaxIdx hn f ≤ ⟨0, hn⟩ :=
    argmaxIdx_le hn f _ (fun k => by rw [h k, h ⟨0, hn⟩])
  exact le_antisymm h0 (Fin.mk_le_of_le_val (Nat.zero_le _))

/-- Boolean planes viewed as the 0/1 numbers np.argmax compares. -/
def boolToRat (b : Bool) : ℚ := if b then 1 else 0

/-- One iteration of the decode loop (lines 244-245): mask[idxs == cn] = k
writes the class color into every pixel whose argmax index is cn. -/
def writeStep {X Y C n : ℕ} (colors : Fin n → Color C)
    (idxs : Fin X → Fin Y → Fin n) (m : Fin X → Fin Y → Color C) (cn : Fin n) :
    Fin X → Fin Y → Color C :=
  fun x y => if idxs x y = cn then colors cn else m x y

/-- _prediction_to_mask (lines 240-246): output array of shape
prediction.shape[:2] + (IMG_CHANNELS,), initialized to zeros; idxs is the
per-pixel argmax over the class axis; then one write pass per class. -/
def _prediction_to_mask {X Y C : ℕ} (classes : ClassTable C)
    (hn : 0 < classes.length)
    (pred : Fin X → Fin Y → Fin classes.length → ℚ) :
    Fin X → Fin Y → Color C :=
  let idxs := fun x y => argmaxIdx hn (pred x y)
  (List.finRange classes.length).foldl
    (writeStep (fun i => (classes.get i).1) idxs) (fun _ _ _ => (0 : Byte))

theorem writeFold_skip {X Y C n : ℕ} (colors : Fin n → Color C)
    (idxs : Fin X → Fin Y → Fin n) (l : List (Fin n))
    (m : Fin X → Fin Y → Color C) (x : Fin X) (y : Fin Y)
    (h : idxs x y ∉ l) :
    l.foldl (writeStep colors idxs) m x y = m x y := by
  induction l generalizing m with
  | nil => rfl
  | cons c t ih =>
    have hne : idxs x y ≠ c := fun hh => h (List.mem_cons.mpr (Or.inl hh))
    rw [List.foldl_cons, ih _ (fun hm => h (List.mem_cons_of_mem _ hm))]
    simp [writeStep, hne]

theorem writeFold_mem {X Y C n : ℕ} (colors : Fin n → Color C)
    (idxs : Fin X → Fin Y → Fin n) (l : List (Fin n))
    (m : Fin X → Fin Y → Color C) (x : Fin X) (y : Fin Y)
    (h : idxs x y ∈ l) :
    l.foldl (writeStep colors idxs) m x y = colors (idxs x y) := by
  induction l generalizing m with
  | nil => cases h
  | cons c t ih =>
    rw [List.foldl_cons]
    by_cases hm : idxs x y ∈ t
    · exact ih _ hm
    · have hc : idxs x y = c := by
        rcases List.mem_cons.mp h with h1 | h2
        · exact h1
        · exact absurd h2 hm
      rw [writeFold_skip colors idxs t _ x y hm]
      simp [writeStep, hc]

/-- Pointwise form of the decoder: each output pixel is the color of the class
selected by argmax at that pixel. -/
theorem prediction_to_mask_apply {X Y C : ℕ} (classes : ClassTable C)
    (hn : 0 < classes.length)
    (pred : Fin X → Fin Y → Fin classes.length → ℚ) (x : Fin X) (y : Fin Y) :
    _prediction_to_mask classes hn pred x y =
      (classes.get (argmaxIdx hn (pred x y))).1 :=
  writeFold_mem _ _ _ _ x y (List.mem_finRange _)

/-- Pointwise form of the encoder after the two axis swaps. -/
theorem mask_to_classes_apply {S C : ℕ} (classes : ClassTable C)
    (mask : MaskImg S C) (x y : Fin S) (i : Fin classes.length) :
    mask_to_classes classes mask x y i = classPlane (classes.get i).1 mask x y :=
  rfl

/-- A plane entry is true exactly when the pixel equals that class color. -/
theorem mask_to_classes_true_iff {S C : ℕ} (classes : ClassTable C)
    (mask : MaskImg S C) (x y : Fin S) (i : Fin classes.length) :
    mask_to_classes classes mask x y i = true ↔
      mask x y = (classes.get i).1 := by
  simp [mask_to_classes_apply, classPlane, funext_iff]

/-- A pixel matching no class color yields an all-false plane vector. -/
theorem mask_to_classes_false_of_unmatched {S C : ℕ} (classes : ClassTable C)
    (mask : MaskImg S C) (x y : Fin S)
    (h : ∀ i, mask x y ≠ (classes.get i).1) (i : Fin classes.length) :
    mask_to_classes classes mask x y i = false := by
  cases hb : mask_to_classes classes mask x y i with
  | false => rfl
  | true => exact absurd ((mask_to_classes_true_iff classes mask x y i).mp hb) (h i)

/-- A two-class table over single-channel images, used as concrete input. -/
def demoClasses : ClassTable 1 :=
  [(fun _ => (0 : Byte), "background"), (fun _ => (1 : Byte), "tumor")]

theorem demoClasses_pos : 0 < demoClasses.length := by decide

/-- A 1 x 1 mask painted with the first demo class color. -/
def demoMask : MaskImg 1 1 := fun _ _ _ => (0 : Byte)

/-- C4: for a mask whose every pixel exactly equals exactly one class color
(class colors pairwise distinct), every pixel of the encoded label-plane array
has exactly one true entry along the class axis (one-hot); the output has the
class axis last, with entry i equal to the plane of the i-th class-table
entry, and an entry is true exactly when the pixel carries that class color. -/
theorem C4_one_hot {S C : ℕ} (classes : ClassTable C) (mask : MaskImg S C)
    (hinj : Function.Injective fun i : Fin classes.length => (classes.get i).1)
    (hcov : ∀ x y, ∃ i, mask x y = (classes.get i).1) :
    ∀ x y, (∃! i, mask_to_classes classes mask x y i = true)
      ∧ (∀ i, mask_to_classes classes mask x y i =
          classPlane (classes.get i).1 mask x y)
      ∧ (∀ i, mask_to_classes classes mask x y i = true ↔
          mask x y = (classes.get i).1) := by
  intro x y
  obtain ⟨i₀, hi₀⟩ := hcov x y
  refine ⟨⟨i₀, (mask_to_classes_true_iff classes mask x y i₀).mpr hi₀, ?_⟩,
    fun i => rfl, fun i => mask_to_classes_true_iff classes mask x y i⟩
  intro j hj
  exact hinj (((mask_to_classes_true_iff classes mask x y j).mp hj).symm.trans hi₀)

theorem C4_one_hot_witness :
    (Function.Injective fun i : Fin demoClasses.length => (demoClasses.get i).1)
    ∧ (∀ x y : Fin 1, ∃ i, demoMask x y = (demoClasses.get i).1)
    ∧ (∃! i, mask_to_classes demoClasses demoMask 0 0 i = true) :=
  ⟨by decide, by decide,
    (C4_one_hot demoClasses demoMask (by decide) (by decide) 0 0).1⟩

/-- C5: a pixel whose color matches no class yields an all-false class vector
(silently); and the decoder writes the color of the lowest-index maximal class
at every pixel: the written class attains the maximum probability, is the
least index among the maximizers, and an all-zero (fully tied) probability
vector yields the color of class 0. -/
theorem C5_unmatched_and_tiebreak {C : ℕ} (classes : ClassTable C)
    (hn : 0 < classes.length) :
    (∀ (S : ℕ) (mask : MaskImg S C) (x y : Fin S),
        (∀ i, mask x y ≠ (classes.get i).1) →
        ∀ i, mask_to_classes classes mask x y i = false)
    ∧ ∀ (X Y : ℕ) (pred : Fin X → Fin Y → Fin classes.length → ℚ)
        (x : Fin X) (y : Fin Y),
        _prediction_to_mask classes hn pred x y =
          (classes.get (argmaxIdx hn (pred x y))).1
        ∧ (∀ j, pred x y j ≤ pred x y (argmaxIdx hn (pred x y)))
        ∧ (∀ j, (∀ k, pred x y k ≤ pred x y j) → argmaxIdx hn (pred x y) ≤ j)
        ∧ ((∀ j, pred x y j = 0) →
            _prediction_to_mask classes hn pred x y = (classes.get ⟨0, hn⟩).1) := by
  constructor
  · intro S mask x y h i
    exact mask_to_classes_false_of_unmatched classes mask x y h i
  · intro X Y pred x y
    refine ⟨prediction_to_mask_apply classes hn pred x y,
      argmaxIdx_isMax hn (pred x y),
      argmaxIdx_le hn (pred x y), ?_⟩
    intro hz
    rw [prediction_to_mask_apply, argmaxIdx_const hn (pred x y) 0 hz]

theorem C5_unmatched_and_tiebreak_witness :
    0 < demoClasses.length
    ∧ _prediction_to_mask demoClasses demoClasses_pos
        (fun (_ : Fin 1) (_ : Fin 1) (_ : Fin demoClasses.length) => (0 : ℚ)) 0 0 =
        (demoClasses.get ⟨0, demoClasses_pos⟩).1 :=
  ⟨demoClasses_pos,
    ((C5_unmatched_and_tiebreak demoClasses demoClasses_pos).2 1 1
      (fun _ _ _ => (0 : ℚ)) 0 0).2.2.2 (fun _ => rfl)⟩

/-- C1: decoding the encoded planes of a mask whose pixels each carry exactly
the color of some class (classes painted over non-overlapping regions covering
the image, colors pairwise distinct) reproduces the mask exactly. -/
theorem C1_roundtrip {S C : ℕ} (classes : ClassTable C)
    (hn : 0 < classes.length) (mask : MaskImg S C)
    (hinj : Function.Injective fun i : Fin classes.length => (classes.get i).1)
    (hcov : ∀ x y, ∃ i, mask x y = (classes.get i).1) :
    _prediction_to_mask classes hn
      (fun x y i => boolToRat (mask_to_classes classes mask x y i)) = mask := by
  funext x y
  obtain ⟨i₀, hi₀⟩ := hcov x y
  rw [prediction_to_mask_apply]
  have ht : mask_to_classes classes mask x y i₀ = true :=
    (mask_to_classes_true_iff classes mask x y i₀).mpr hi₀
  have harg : argmaxIdx hn
      (fun i => boolToRat (mask_to_classes classes mask x y i)) = i₀ := by
    apply argmaxIdx_eq_of_strict
    intro j hj
    have hf : mask_to_classes classes mask x y j = false := by
      cases hb : mask_to_classes classes mask x y j with
      | false => rfl
      | true =>
        exact absurd
          (hinj (((mask_to_classes_true_iff classes mask x y j).mp hb).symm.trans hi₀))
          hj
    simp [boolToRat, ht, hf]
  simp only [harg]
  exact hi₀.symm

theorem C1_roundtrip_witness :
    (0 < demoClasses.length)
    ∧ (Function.Injective fun i : Fin demoClasses.length => (demoClasses.get i).1)
    ∧ (∀ x y : Fin 1, ∃ i, demoMask x y = (demoClasses.get i).1)
    ∧ _prediction_to_mask demoClasses demoClasses_pos
        (fun x y i => boolToRat (mask_to_classes demoClasses demoMask x y i)) =
        demoMask :=
  ⟨demoClasses_pos, by decide, by decide,
    C1_roundtrip demoClasses demoClasses_pos demoMask (by decide) (by decide)⟩

/-- The shape of an array returned by skimage.io.imread: 2-D (grayscale) or
3-D (height, width, channels). -/
inductive Shape
  | d2 (h w : ℕ)
  | d3 (h w c : ℕ)
deriving DecidableEq

/-- Errors the loaders can raise: the BaseException of lines 117/122/139/145
for a bad channel count, and the numpy IndexError raised by the slice
img[:, :, :IMG_CHANNELS] when the array has only two dimensions. -/
inductive LoadErr
  | invalidChannel
  | indexError
deriving DecidableEq

/-- The slice imread(...)[:, :, :IMG_CHANNELS] (lines 115/137): on a 3-D array
it truncates the channel axis to at most IMG_CHANNELS; on a 2-D array the
triple index raises an IndexError. -/
def sliceChannels (C : ℕ) : Shape → Except LoadErr Shape
  | Shape.d2 _ _ => Except.error LoadErr.indexError
  | Shape.d3 h w c => Except.ok (Shape.d3 h w (min c C))

/-- The validity check of lines 116/121/138/144:
len(shape) == 2 or shape[2] != IMG_CHANNELS. -/
def channelInvalid (C : ℕ) : Shape → Bool
  | Shape.d2 _ _ => true
  | Shape.d3 _ _ c => decide (c ≠ C)

/-- Reading one image file (lines 115-118 / 137-140): slice to the configured
channel count, then raise on a channel mismatch. -/
def loadImageFile (C : ℕ) (s : Shape) : Except LoadErr Shape :=
  match sliceChannels C s with
  | Except.error e => Except.error e
  | Except.ok s2 =>
    if channelInvalid C s2 then Except.error LoadErr.invalidChannel
    else Except.ok s2

/-- Reading one mask file (lines 120-122 / 143-145): no channel slice is
applied; a mismatching channel count raises directly. -/
def loadMaskFile (C : ℕ) (s : Shape) : Except LoadErr Shape :=
  if channelInvalid C s then Except.error LoadErr.invalidChannel
  else Except.ok s

/-- One iteration of the training loop body (lines 114-123): read the image,
then the mask; any raise aborts. -/
def loadTrainFile (C : ℕ) (f : Shape × Shape) : Except LoadErr Shape :=
  match loadImageFile C f.1 with
  | Except.error e => Except.error e
  | Except.ok img =>
    match loadMaskFile C f.2 with
    | Except.error e => Except.error e
    | Except.ok _ => Except.ok img

/-- load_training_images (lines 103-123) at the level of array shapes: the
loop over the file list, where the first raise aborts the whole load and no
sample list is produced. -/
def load_training_images (C : ℕ) : List (Shape × Shape) → Except LoadErr (List Shape)
  | [] => Except.ok []
  | f :: rest =>
    match loadTrainFile C f with
    | Except.error e => Except.error e
    | Except.ok img =>
      match load_training_images C rest with
      | Except.error e => Except.error e
      | Except.ok imgs => Except.ok (img :: imgs)

/-- One iteration of the testing loop body (lines 136-146): the mask file is
read only when IS_TEST_DATA_LABELED is set. -/
def loadTestFile (C : ℕ) (labeled : Bool) (f : Shape × Shape) : Except LoadErr Shape :=
  match loadImageFile C f.1 with
  | Except.error e => Except.error e
  | Except.ok img =>
    if labeled then
      match loadMaskFile C f.2 with
      | Except.error e => Except.error e
      | Except.ok _ => Except.ok img
    else Except.ok img

/-- load_testing_images (lines 125-146) at the level of array shapes. -/
def load_testing_images (C : ℕ) (labeled : Bool) :
    List (Shape × Shape) → Except LoadErr (List Shape)
  | [] => Except.ok []
  | f :: rest =>
    match loadTestFile C labeled f with
    | Except.error e => Except.error e
    | Except.ok img =>
      match load_testing_images C labeled rest with
      | Except.error e => Except.error e
      | Except.ok imgs => Except.ok (img :: imgs)

/-- An image file shape the loader rejects: 2-D, or fewer channels than
configured (more channels are silently truncated by the slice). -/
def imgBad (C : ℕ) : Shape → Bool
  | Shape.d2 _ _ => true
  | Shape.d3 _ _ c => decide (c < C)

theorem loadImageFile_d2 (C h w : ℕ) :
    loadImageFile C (Shape.d2 h w) = Except.error LoadErr.indexError := rfl

theorem loadImageFile_lt (C h w c : ℕ) (hc : c < C) :
    loadImageFile C (Shape.d3 h w c) = Except.error LoadErr.invalidChannel := by
  simp [loadImageFile, sliceChannels, channelInvalid, Nat.min_eq_left hc.le, hc.ne]

theorem imgBad_error (C : ℕ) (s : Shape) (h : imgBad C s = true) :
    ∃ e, loadImageFile C s = Except.error e := by
  cases s with
  | d2 hh ww => exact ⟨LoadErr.indexError, rfl⟩
  | d3 hh ww c =>
    simp only [imgBad, decide_eq_true_eq] at h
    exact ⟨LoadErr.invalidChannel, loadImageFile_lt C hh ww c h⟩

theorem loadMaskFile_error (C : ℕ) (s : Shape) (h : channelInvalid C s = true) :
    loadMaskFile C s = Except.error LoadErr.invalidChannel := by
  simp [loadMaskFile, h]

theorem loadTrainFile_error (C : ℕ) (f : Shape × Shape)
    (h : imgBad C f.1 = true ∨ channelInvalid C f.2 = true) :
    ∃ e, loadTrainFile C f = Except.error e := by
  rcases h with h | h
  · obtain ⟨e, he⟩ := imgBad_error C f.1 h
    exact ⟨e, by unfold loadTrainFile; rw [he]⟩
  · cases him : loadImageFile C f.1 with
    | error e => exact ⟨e, by unfold loadTrainFile; rw [him]⟩
    | ok img =>
      exact ⟨LoadErr.invalidChannel,
        by unfold loadTrainFile; rw [him, loadMaskFile_error C f.2 h]⟩

theorem load_training_error_of_mem (C : ℕ) (files : List (Shape × Shape))
    (f : Shape × Shape) (hf : f ∈ files)
    (h : imgBad C f.1 = true ∨ channelInvalid C f.2 = true) :
    ∃ e, load_training_images C files = Except.error e := by
  induction files with
  | nil => cases hf
  | cons g rest ih =>
    rcases List.mem_cons.mp hf with rfl | hmem
    · obtain ⟨e, he⟩ := loadTrainFile_error C f h
      exact ⟨e, by unfold load_training_images; rw [he]⟩
    · cases hg : loadTrainFile C g with
      | error e => exact ⟨e, by unfold load_training_images; rw [hg]⟩
      | ok img =>
        obtain ⟨e, he⟩ := ih hmem
        exact ⟨e, by unfold load_training_images; rw [hg, he]⟩

/-- C3 as frozen is refuted here: an image file with MORE channels (4) than the
configured IMG_CHANNELS (3) is silently truncated by the slice and the whole
load succeeds, instead of raising the invalid-channel error. -/
theorem C3_counterexample :
    load_training_images 3 [(Shape.d3 2 2 4, Shape.d3 2 2 3)] =
      Except.ok [Shape.d3 2 2 3]
    ∧ ¬ ∃ e, load_training_images 3 [(Shape.d3 2 2 4, Shape.d3 2 2 3)] =
        Except.error e := by
  have h1 : load_training_images 3 [(Shape.d3 2 2 4, Shape.d3 2 2 3)] =
      Except.ok [Shape.d3 2 2 3] := by rfl
  refine ⟨h1, ?_⟩
  rintro ⟨e, he⟩
  rw [h1] at he
  simp at he

/-- C3 amended: the load aborts with an error (producing no sample list) as
soon as any file is bad, where an image file is bad when it is 2-D or has
FEWER channels than configured (more channels are truncated and accepted),
and a mask file is bad when 2-D or when its channel count differs in either
direction; images with too few channels and all bad masks raise the
invalid-channel error, while a 2-D image raises an index error from the
channel slice itself. -/
theorem C3_channel_error_amended (Cch : ℕ) (files : List (Shape × Shape)) :
    ((∃ f ∈ files, imgBad Cch f.1 = true ∨ channelInvalid Cch f.2 = true) →
      ∃ e, load_training_images Cch files = Except.error e)
    ∧ (∀ h w c, c < Cch →
        loadImageFile Cch (Shape.d3 h w c) = Except.error LoadErr.invalidChannel)
    ∧ (∀ h w, loadImageFile Cch (Shape.d2 h w) = Except.error LoadErr.indexError)
    ∧ (∀ s, channelInvalid Cch s = true →
        loadMaskFile Cch s = Except.error LoadErr.invalidChannel) := by
  refine ⟨?_, fun h w c hc => loadImageFile_lt Cch h w c hc,
    fun h w => loadImageFile_d2 Cch h w,
    fun s hs => loadMaskFile_error Cch s hs⟩
  rintro ⟨f, hf, h⟩
  exact load_training_error_of_mem Cch files f hf h

theorem C3_channel_error_amended_witness :
    (∃ f ∈ [(Shape.d3 2 2 2, Shape.d3 2 2 3)],
      imgBad 3 f.1 = true ∨ channelInvalid 3 f.2 = true)
    ∧ ∃ e, load_training_images 3 [(Shape.d3 2 2 2, Shape.d3 2 2 3)] =
        Except.error e :=
  ⟨by decide,
    (C3_channel_error_amended 3 [(Shape.d3 2 2 2, Shape.d3 2 2 3)]).1 (by decide)⟩

/-- C10: the channel checks are asymmetric: an image with more channels than
IMG_CHANNELS is truncated to the first IMG_CHANNELS and loads without error,
while a mask with the same surplus channel count raises the invalid-channel
error; a one-file batch with such an image and a valid mask loads fully. -/
theorem C10_channel_asymmetry (Cch h w c : ℕ) (hc : Cch < c) :
    loadImageFile Cch (Shape.d3 h w c) = Except.ok (Shape.d3 h w Cch)
    ∧ loadMaskFile Cch (Shape.d3 h w c) = Except.error LoadErr.invalidChannel
    ∧ load_training_images Cch [(Shape.d3 h w c, Shape.d3 h w Cch)] =
        Except.ok [Shape.d3 h w Cch] := by
  have h1 : loadImageFile Cch (Shape.d3 h w c) = Except.ok (Shape.d3 h w Cch) := by
    simp [loadImageFile, sliceChannels, channelInvalid, Nat.min_eq_right hc.le]
  have h2 : loadMaskFile Cch (Shape.d3 h w c) = Except.error LoadErr.invalidChannel :=
    loadMaskFile_error Cch _ (by simp [channelInvalid, hc.ne'])
  refine ⟨h1, h2, ?_⟩
  unfold load_training_images loadTrainFile
  rw [h1]
  simp [loadMaskFile, channelInvalid, load_training_images]

theorem C10_channel_asymmetry_witness :
    (3 < 4)
    ∧ (loadImageFile 3 (Shape.d3 2 2 4) = Except.ok (Shape.d3 2 2 3)
      ∧ loadMaskFile 3 (Shape.d3 2 2 4) = Except.error LoadErr.invalidChannel
      ∧ load_training_images 3 [(Shape.d3 2 2 4, Shape.d3 2 2 3)] =
          Except.ok [Shape.d3 2 2 3]) :=
  ⟨by decide, C10_channel_asymmetry 3 2 2 4 (by decide)⟩

/-- The zero-initialized label-plane array np.zeros(..., dtype=np.bool) of
line 134. -/
def zeroPlanes (S n : ℕ) : Planes S n := fun _ _ _ => false

/-- Content-level view of load_testing_images (lines 133-146) on channel-valid
files: test_images collects the image pixels in order; test_masks starts as
zeroPlanes per sample and is overwritten with mask_to_classes only under the
IS_TEST_DATA_LABELED branch (lines 142-146). -/
def load_testing_images_data {S C : ℕ} (classes : ClassTable C) (labeled : Bool)
    (files : List (MaskImg S C × MaskImg S C)) :
    List (MaskImg S C) × List (Planes S classes.length) :=
  (files.map Prod.fst,
   files.map fun f =>
     if labeled then mask_to_classes classes f.2 else zeroPlanes S classes.length)

theorem loadTestFile_false (C : ℕ) (f : Shape × Shape) :
    loadTestFile C false f = loadImageFile C f.1 := by
  unfold loadTestFile
  cases loadImageFile C f.1 <;> simp

/-- C8: with the test-data-labeled flag false, no mask file is read (the load
result is independent of the mask files), the test label-plane array stays
zero-filled for the whole split, and the test image array is still populated
in order. -/
theorem C8_unlabeled_no_mask_read {S C : ℕ} (classes : ClassTable C)
    (files : List (MaskImg S C × MaskImg S C)) :
    (load_testing_images_data classes false files).2 =
      files.map (fun _ => zeroPlanes S classes.length)
    ∧ (load_testing_images_data classes false files).1 = files.map Prod.fst
    ∧ ∀ (Cch : ℕ) (files₁ files₂ : List (Shape × Shape)),
        files₁.map Prod.fst = files₂.map Prod.fst →
        load_testing_images Cch false files₁ = load_testing_images Cch false files₂ := by
  refine ⟨rfl, rfl, ?_⟩
  intro Cch files₁ files₂ hmap
  induction files₁ generalizing files₂ with
  | nil =>
    cases files₂ with
    | nil => rfl
    | cons b m => simp at hmap
  | cons a l ih =>
    cases files₂ with
    | nil => simp at hmap
    | cons b m =>
      simp only [List.map_cons, List.cons.injEq] at hmap
      obtain ⟨h1, h2⟩ := hmap
      unfold load_testing_images
      rw [loadTestFile_false, loadTestFile_false, h1, ih m h2]

theorem C8_unlabeled_no_mask_read_witness :
    ([(Shape.d3 1 1 3, Shape.d2 5 5)].map Prod.fst =
      [(Shape.d3 1 1 3, Shape.d3 9 9 9)].map Prod.fst)
    ∧ load_testing_images 3 false [(Shape.d3 1 1 3, Shape.d2 5 5)] =
        load_testing_images 3 false [(Shape.d3 1 1 3, Shape.d3 9 9 9)] :=
  ⟨by decide,
    (C8_unlabeled_no_mask_read demoClasses
      ([] : List (MaskImg 1 1 × MaskImg 1 1))).2.2 3
      [(Shape.d3 1 1 3, Shape.d2 5 5)] [(Shape.d3 1 1 3, Shape.d3 9 9 9)]
      (by decide)⟩

/-- K.sum(t, axis=[1, 2, 3]) on a (batch, x, y, classes) tensor: the total of
one sample's entries (lines 31-32 / 38-39). -/
def sumAxes123 {N X Y M : ℕ} (t : Fin N → Fin X → Fin Y → Fin M → ℚ)
    (b : Fin N) : ℚ :=
  ∑ x, ∑ y, ∑ m, t b x y m

/-- K.mean(v, axis=0) of a per-sample vector: the arithmetic mean over the
batch axis (lines 33 / 40). -/
def meanAxis0 {N : ℕ} (v : Fin N → ℚ) : ℚ := (∑ b, v b) / (N : ℚ)

/-- iou_coef (lines 30-34): per-sample (intersection + smooth) /
(union + smooth) with union = sum + sum - intersection, then batch mean. -/
def iou_coef {N X Y M : ℕ} (y_true y_pred : Fin N → Fin X → Fin Y → Fin M → ℚ)
    (smooth : ℚ) : ℚ :=
  meanAxis0 fun b =>
    (sumAxes123 (fun b x y m => y_true b x y m * y_pred b x y m) b + smooth) /
      (sumAxes123 y_true b + sumAxes123 y_pred b -
        sumAxes123 (fun b x y m => y_true b x y m * y_pred b x y m) b + smooth)

/-- dice_coef (lines 37-41): per-sample (2 * intersection + smooth) /
(sum + sum + smooth), then batch mean. -/
def dice_coef {N X Y M : ℕ} (y_true y_pred : Fin N → Fin X → Fin Y → Fin M → ℚ)
    (smooth : ℚ) : ℚ :=
  meanAxis0 fun b =>
    (2 * sumAxes123 (fun b x y m => y_true b x y m * y_pred b x y m) b + smooth) /
      (sumAxes123 y_true b + sumAxes123 y_pred b + smooth)

/-- C7 as frozen is refuted here: with smooth = 0 and identical all-zero label
planes both denominators are zero, so neither coefficient equals 1 (the float
code yields NaN; over exact rationals the 0/0 convention yields 0). -/
theorem C7_counterexample :
    iou_coef (fun (_ : Fin 1) (_ : Fin 1) (_ : Fin 1) (_ : Fin 1) => (0 : ℚ))
      (fun _ _ _ _ => 0) 0 ≠ 1
    ∧ dice_coef (fun (_ : Fin 1) (_ : Fin 1) (_ : Fin 1) (_ : Fin 1) => (0 : ℚ))
      (fun _ _ _ _ => 0) 0 ≠ 1 := by
  constructor <;>
    simp [iou_coef, dice_coef, meanAxis0, sumAxes123]

/-- C7 amended: for any smoothing constant s with 0 <= s, identical boolean
label-plane batches give IoU = Dice = 1 provided each sample has a nonzero
plane sum or s is positive (with s = 0 and an all-zero sample the quotient is
0/0 and the coefficient is not 1); and when the predicted and true planes are
pointwise disjoint, both coefficients are at most s / U whenever every
sample's combined plane sum is at least U > 0, so both vanish as the
overlap-free plane sums grow. -/
theorem C7_metric_sanity_amended (N X Y M : ℕ) (hN : 0 < N) (s : ℚ) (hs : 0 ≤ s)
    (y_true y_pred : Fin N → Fin X → Fin Y → Fin M → ℚ) :
    ((∀ b x y m, y_true b x y m = 0 ∨ y_true b x y m = 1) → y_pred = y_true →
      (∀ b, 0 < s ∨ 0 < sumAxes123 y_true b) →
      iou_coef y_true y_pred s = 1 ∧ dice_coef y_true y_pred s = 1)
    ∧ ((∀ b x y m, y_true b x y m * y_pred b x y m = 0) →
      ∀ U : ℚ, 0 < U →
      (∀ b, U ≤ sumAxes123 y_true b + sumAxes123 y_pred b) →
      iou_coef y_true y_pred s ≤ s / U ∧ dice_coef y_true y_pred s ≤ s / U) := by
  have hNQ : ((N : ℚ)) ≠ 0 := Nat.cast_ne_zero.mpr hN.ne'
  constructor
  · intro h01 hpe hb
    rw [hpe]
    have hsq : ∀ b, sumAxes123
        (fun b x y m => y_true b x y m * y_true b x y m) b = sumAxes123 y_true b := by
      intro b
      refine Finset.sum_congr rfl fun x _ => Finset.sum_congr rfl
        fun y _ => Finset.sum_congr rfl fun m _ => ?_
      show y_true b x y m * y_true b x y m = y_true b x y m
      rcases h01 b x y m with h | h <;> · rw [h]; ring
    have hnn : ∀ b, 0 ≤ sumAxes123 y_true b := by
      intro b
      refine Finset.sum_nonneg fun x _ => Finset.sum_nonneg
        fun y _ => Finset.sum_nonneg fun m _ => ?_
      rcases h01 b x y m with h | h <;> simp [h]
    have hden : ∀ b, (0 : ℚ) < sumAxes123 y_true b + s := by
      intro b
      rcases hb b with h | h
      · have := hnn b; linarith
      · linarith
    constructor
    · unfold iou_coef meanAxis0
      have hterm : ∀ b : Fin N,
          (sumAxes123 (fun b x y m => y_true b x y m * y_true b x y m) b + s) /
            (sumAxes123 y_true b + sumAxes123 y_true b -
              sumAxes123 (fun b x y m => y_true b x y m * y_true b x y m) b + s) =
          1 := by
        intro b
        rw [hsq b, show sumAxes123 y_true b + sumAxes123 y_true b -
          sumAxes123 y_true b = sumAxes123 y_true b by ring]
        exact div_self (hden b).ne'
      rw [Finset.sum_congr rfl fun b _ => hterm b]
      simp [hNQ]
    · unfold dice_coef meanAxis0
      have hterm : ∀ b : Fin N,
          (2 * sumAxes123 (fun b x y m => y_true b x y m * y_true b x y m) b + s) /
            (sumAxes123 y_true b + sumAxes123 y_true b + s) = 1 := by
        intro b
        rw [hsq b]
        have : (0 : ℚ) < sumAxes123 y_true b + sumAxes123 y_true b + s := by
          have h1 := hden b; have h2 := hnn b; linarith
        rw [show 2 * sumAxes123 y_true b + s =
          sumAxes123 y_true b + sumAxes123 y_true b + s by ring]
        exact div_self this.ne'
      rw [Finset.sum_congr rfl fun b _ => hterm b]
      simp [hNQ]
  · intro hdisj U hU hUb
    have hinter : ∀ b, sumAxes123
        (fun b x y m => y_true b x y m * y_pred b x y m) b = 0 := by
      intro b
      refine Finset.sum_eq_zero fun x _ => Finset.sum_eq_zero
        fun y _ => Finset.sum_eq_zero fun m _ => hdisj b x y m
    have hbound : ∀ b : Fin N, s / (sumAxes123 y_true b + sumAxes123 y_pred b + s) ≤
        s / U := by
      intro b
      exact div_le_div_of_nonneg_left hs hU (by have := hUb b; linarith)
    have hmean : ∀ v : Fin N → ℚ, (∀ b, v b ≤ s / U) →
        meanAxis0 v ≤ s / U := by
      intro v hv
      unfold meanAxis0
      have hsum : ∑ b, v b ≤ ∑ _b : Fin N, s / U := Finset.sum_le_sum fun b _ => hv b
      have hconst : ∑ _b : Fin N, s / U = (N : ℚ) * (s / U) := by
        rw [Finset.sum_const, Finset.card_univ, Fintype.card_fin, nsmul_eq_mul]
      calc (∑ b, v b) / (N : ℚ) ≤ ((N : ℚ) * (s / U)) / (N : ℚ) := by
            apply div_le_div_of_nonneg_right ?_ (Nat.cast_nonneg N)
            rw [← hconst]; exact hsum
        _ = s / U := by rw [mul_div_cancel_left₀ _ hNQ]
    constructor
    · unfold iou_coef
      apply hmean
      intro b
      rw [hinter b, show sumAxes123 y_true b + sumAxes123 y_pred b - 0 + s =
        sumAxes123 y_true b + sumAxes123 y_pred b + s by ring, zero_add]
      exact hbound b
    · unfold dice_coef
      apply hmean
      intro b
      rw [hinter b, show (2 : ℚ) * 0 + s = s by ring]
      exact hbound b

theorem C7_metric_sanity_amended_witness :
    (0 < 1) ∧ ((0 : ℚ) ≤ 1)
    ∧ iou_coef (fun (_ : Fin 1) (_ : Fin 1) (_ : Fin 1) (_ : Fin 1) => (1 : ℚ))
        (fun _ _ _ _ => 1) 1 = 1
    ∧ dice_coef (fun (_ : Fin 1) (_ : Fin 1) (_ : Fin 1) (_ : Fin 1) => (1 : ℚ))
        (fun _ _ _ _ => 1) 1 = 1 := by
  have h := (C7_metric_sanity_amended 1 1 1 1 Nat.one_pos 1 (by norm_num)
    (fun _ _ _ _ => 1) (fun _ _ _ _ => 1)).1
    (fun _ _ _ _ => Or.inr rfl) rfl
    (fun _ => Or.inl (by norm_num))
  exact ⟨Nat.one_pos, by norm_num, h.1, h.2⟩

/-- Shape contract of skimage.transform.resize as called at line 262: when the
requested output shape has fewer entries than the input rank, the missing
trailing dimensions are kept from the input (so a (D,H,W,C) volume resized to
(S,S,S) yields (S,S,S,C)). -/
def resize_output_shape (outShape inShape : List ℕ) : List ℕ :=
  outShape ++ inShape.drop outShape.length

/-- Shape contract of skimage.transform.rescale with multichannel=True as
called at line 270: each of the leading axes covered by a scale factor gets
size round(size * factor); the trailing channel axis is preserved. -/
def rescale_output_shape (inShape : List ℕ) (factors : List ℚ) : List ℕ :=
  List.zipWith (fun n f => (round ((n : ℚ) * f)).toNat) inShape factors ++
    inShape.drop factors.length

/-- upscale_factor of line 258: per-axis original size over IMG_SIZE. -/
def upscale_factor (D H W S : ℕ) : List ℚ :=
  [(D : ℚ) / (S : ℚ), (H : ℚ) / (S : ℚ), (W : ℚ) / (S : ℚ)]

/-- The two resampling steps of predict_volume (lines 255-270) at the level of
array shapes: downscale the (D,H,W,C) input volume to (IMG_SIZE,)*3, and
upscale the (S,S,S,NUM_CLASSES) prediction stack by upscale_factor. -/
def predict_volume_shapes (S numC D H W C : ℕ) : List ℕ × List ℕ :=
  (resize_output_shape [S, S, S] [D, H, W, C],
   rescale_output_shape [S, S, S, numC] (upscale_factor D H W S))

theorem rescaleAxis_exact (n m : ℕ) (hn : (n : ℚ) ≠ 0) :
    (round ((n : ℚ) * ((m : ℚ) / (n : ℚ)))).toNat = m := by
  rw [mul_comm, div_mul_cancel₀ _ hn, round_natCast]
  exact Int.toNat_natCast m

/-- C6: for an input volume of shape (D,H,W,C), the downscale step produces
spatial shape (S,S,S) with the C channels appended, and the upscale step on a
(S,S,S,NUM_CLASSES) probability volume with factors (D/S, H/S, W/S)
produces exactly (D,H,W,NUM_CLASSES), the class axis preserved (the rounding
in the shape computation is exact here since S divides S * (D/S)). -/
theorem C6_resampler_shapes (S numC D H W C : ℕ) (hS : 0 < S) :
    (predict_volume_shapes S numC D H W C).1 = [S, S, S, C]
    ∧ (predict_volume_shapes S numC D H W C).2 = [D, H, W, numC] := by
  have hSQ : (S : ℚ) ≠ 0 := Nat.cast_ne_zero.mpr hS.ne'
  refine ⟨rfl, ?_⟩
  show (round ((S : ℚ) * ((D : ℚ) / (S : ℚ)))).toNat ::
      (round ((S : ℚ) * ((H : ℚ) / (S : ℚ)))).toNat ::
      (round ((S : ℚ) * ((W : ℚ) / (S : ℚ)))).toNat :: numC :: [] =
      [D, H, W, numC]
  rw [rescaleAxis_exact S D hSQ, rescaleAxis_exact S H hSQ,
    rescaleAxis_exact S W hSQ]

theorem C6_resampler_shapes_witness :
    (0 < 2)
    ∧ (predict_volume_shapes 2 5 4 6 8 3).1 = [2, 2, 2, 3]
    ∧ (predict_volume_shapes 2 5 4 6 8 3).2 = [4, 6, 8, 5] :=
  ⟨by decide, C6_resampler_shapes 2 5 4 6 8 3 (by decide)⟩

/-- An IEEE-754 double as numpy produces it for the nonnegative values that
occur at line 260: a finite value, positive infinity, or NaN. -/
inductive FVal
  | num (q : ℚ)
  | inf
  | nan
deriving DecidableEq

/-- Float division as numpy evaluates 255 / volume.max(): a positive value
divided by zero gives +inf (with only a RuntimeWarning, no exception), 0 / 0
gives NaN, and NaN propagates. -/
def fdiv : FVal → FVal → FVal
  | FVal.nan, _ => FVal.nan
  | _, FVal.nan => FVal.nan
  | FVal.num a, FVal.num b =>
    if b = 0 then (if a = 0 then FVal.nan else FVal.inf) else FVal.num (a / b)
  | FVal.num _, FVal.inf => FVal.num 0
  | FVal.inf, FVal.num _ => FVal.inf
  | FVal.inf, FVal.inf => FVal.nan

/-- Float multiplication as numpy evaluates img * scale: 0 * inf gives NaN,
a positive finite value times inf gives inf, NaN propagates. -/
def fmul : FVal → FVal → FVal
  | FVal.nan, _ => FVal.nan
  | _, FVal.nan => FVal.nan
  | FVal.num a, FVal.num b => FVal.num (a * b)
  | FVal.num a, FVal.inf => if a = 0 then FVal.nan else FVal.inf
  | FVal.inf, FVal.num b => if b = 0 then FVal.nan else FVal.inf
  | FVal.inf, FVal.inf => FVal.inf

/-- numpy ndarray.max() over a nonempty (D,H,W) volume. -/
def volMax {D H W : ℕ} (hD : 0 < D) (hH : 0 < H) (hW : 0 < W)
    (v : Fin D → Fin H → Fin W → ℚ) : ℚ :=
  Finset.max'
    (Finset.univ.image fun p : Fin D × Fin H × Fin W => v p.1 p.2.1 p.2.2)
    (Finset.Nonempty.image
      ⟨⟨⟨0, hD⟩, ⟨0, hH⟩, ⟨0, hW⟩⟩, Finset.mem_univ _⟩ _)

/-- The intensity-normalization step of predict_volume (line 260):
img = img * (255 / img.max()), evaluated voxelwise in float semantics. -/
def normalize_volume {D H W : ℕ} (hD : 0 < D) (hH : 0 < H) (hW : 0 < W)
    (v : Fin D → Fin H → Fin W → ℚ) : Fin D → Fin H → Fin W → FVal :=
  fun d h w =>
    fmul (FVal.num (v d h w)) (fdiv (FVal.num 255) (FVal.num (volMax hD hH hW v)))

/-- C2 exhibit: on the all-zero volume, line 260 computes 255 / 0 = +inf and
then 0 * inf = NaN at every voxel, so the downscaled result is NaN rather
than the all-zero volume the claim (and spec section 7) requires; no guard
for max == 0 exists in the code. -/
theorem C2_zero_volume_nan :
    normalize_volume Nat.one_pos Nat.one_pos Nat.one_pos
      (fun (_ : Fin 1) (_ : Fin 1) (_ : Fin 1) => (0 : ℚ)) 0 0 0 = FVal.nan := by
  decide

/-- The counter update of fit_model (line 237): after a call requesting a
number of epochs, epochs_measured is increased by exactly that request. -/
def fit_model_epochs_update (epochs_measured epochs : ℕ) : ℕ :=
  epochs_measured + epochs

/-- Keras improvement test for val_loss monitoring: any first value improves,
afterwards only a strictly smaller loss does. -/
def lossImproves (best : Option ℚ) (loss : ℚ) : Bool :=
  match best with
  | none => true
  | some b => decide (loss < b)

/-- Modelled from the spec: the EarlyStopping(patience=5) callback of line 228
is library code not in this repository; per the spec it stops training after
patience consecutive epochs without validation-loss improvement. Given the
per-epoch validation losses (one entry per requested epoch), this returns how
many epochs the training loop actually runs. -/
def earlyStopEpochs (patience : ℕ) : Option ℚ → ℕ → List ℚ → ℕ
  | _, _, [] => 0
  | best, wait, loss :: rest =>
    if lossImproves best loss then 1 + earlyStopEpochs patience (some loss) 0 rest
    else if patience ≤ wait + 1 then 1
    else 1 + earlyStopEpochs patience best (wait + 1) rest

/-- Number of epochs actually trained by one model.fit call (lines 228-235)
under early stopping with patience 5, starting with no best loss. -/
def epochs_actually_trained (losses : List ℚ) : ℕ :=
  earlyStopEpochs 5 none 0 losses

/-- C9 as frozen is refuted here: one fit_model(epochs = 50) call on a run
whose validation loss never improves after the first epoch trains only 6
epochs (early stopping at patience 5), yet epochs_measured becomes 50. -/
theorem C9_counterexample :
    fit_model_epochs_update 0 50 = 50
    ∧ epochs_actually_trained (List.replicate 50 (1 : ℚ)) = 6
    ∧ (50 : ℕ) ≠ 6 := by
  refine ⟨rfl, ?_, by decide⟩
  decide

theorem earlyStopEpochs_le_length (patience : ℕ) (best : Option ℚ) (wait : ℕ)
    (losses : List ℚ) :
    earlyStopEpochs patience best wait losses ≤ losses.length := by
  induction losses generalizing best wait with
  | nil => exact Nat.le_refl 0
  | cons loss rest ih =>
    unfold earlyStopEpochs
    split
    · simpa [Nat.add_comm] using Nat.add_le_add_left (ih (some loss) 0) 1
    · split
      · simp
      · simpa [Nat.add_comm] using Nat.add_le_add_left (ih best (wait + 1)) 1

/-- C9 amended: epochs_measured accumulates the REQUESTED epoch count of each
fit_model call (the running total over repeated calls is the sum of the
requests), while the number of epochs actually trained under early stopping
never exceeds the request; the counter therefore tracks requests, not epochs
actually run. -/
theorem C9_epochs_counter_amended :
    (∀ calls : List ℕ, calls.foldl fit_model_epochs_update 0 = calls.sum)
    ∧ ∀ losses : List ℚ, epochs_actually_trained losses ≤ losses.length := by
  constructor
  · have hgen : ∀ (calls : List ℕ) (a : ℕ),
        calls.foldl fit_model_epochs_update a = a + calls.sum := by
      intro calls
      induction calls with
      | nil => intro a; simp
      | cons e rest ih =>
        intro a
        rw [List.foldl_cons, ih, List.sum_cons]
        unfold fit_model_epochs_update
        ring
    intro calls
    rw [hgen calls 0, Nat.zero_add]
  · intro losses
    exact earlyStopEpochs_le_length 5 none 0 losses
